import Mathlib

/-!
# Verification of the arithmetic-practice core (math-practice-kids)

A shallow embedding, in Lean 4, of the core logic of the repository:

* `src/lib/types.ts` — data model (`ArithmeticCard`, `SpeedStats`, settings);
* `src/lib/cards.ts` — deck generation with difficulty weighting;
* `src/lib/storage.ts` — settings normalisation, deck building, persistence;
* `src/PLAN.md` (Grading Algorithm section) — `calculateGrade`;
* the answer-submission handler of `src/app/page.tsx`.

JavaScript numbers that the program only ever uses as integers are modelled
as `ℤ`, response times (produced by `performance.now()`, fractional
milliseconds) as `ℚ`.  A JS object field that can be `undefined` at runtime
is modelled as an `Option`.  `Math.random()`-driven shuffling is modelled by
an explicit oracle `rand : ℕ → ℕ` (reduced modulo the required bound at the
use site, so every oracle is a valid run).
-/

namespace MathPractice

/-- The FSRS rating fed to the external scheduling primitive (ts-fsrs). -/
inductive Rating where
  | Again
  | Hard
  | Good
  | Easy
deriving DecidableEq, Repr

/-- `type ArithmeticOperation = "addition" | "subtraction"` from `src/lib/types.ts`. -/
inductive ArithmeticOperation where
  | addition
  | subtraction
deriving DecidableEq, Repr

/-- `type OperationMode = ArithmeticOperation | "mixed"` from `src/lib/types.ts`. -/
inductive OperationMode where
  | addition
  | subtraction
  | mixed
deriving DecidableEq, Repr

/-- `type DifficultyMode = "balanced" | "focus-boundaries"` from `src/lib/types.ts`. -/
inductive DifficultyMode where
  | balanced
  | focusBoundaries
deriving DecidableEq, Repr

/-- The opaque ts-fsrs scheduling state attached to a card.  The core never
inspects it beyond (de)serialising dates, so only the fields touched by
`hydrateFsrsCard` in `src/lib/storage.ts` are modelled: `due` and the
optional `last_review`, both as integer timestamps. -/
structure FsrsCard where
  due : ℤ
  lastReview : Option ℤ
deriving DecidableEq, Repr

/-- `createEmptyCard()` of ts-fsrs, modelled abstractly: a fresh scheduling
state.  Its concrete field values are irrelevant to every claim below. -/
def createEmptyCard : FsrsCard := { due := 0, lastReview := none }

/-- `interface ArithmeticCard` from `src/lib/types.ts`.  `difficultyWeight`
is declared as a required `number` in TypeScript, but the hydration path in
`src/lib/storage.ts` builds cards without it, so at runtime the field can be
`undefined`; it is therefore modelled as an `Option ℤ`. -/
structure ArithmeticCard where
  id : String
  operation : ArithmeticOperation
  left : ℤ
  right : ℤ
  fsrsCard : FsrsCard
  difficultyWeight : Option ℤ
deriving DecidableEq, Repr

/-- `interface SpeedStats` from `src/lib/types.ts`: percentile record. -/
structure Percentiles where
  p25 : ℚ
  p50 : ℚ
  p75 : ℚ
  p90 : ℚ
deriving DecidableEq, Repr

/-- `interface SpeedStats` from `src/lib/types.ts`. -/
structure SpeedStats where
  responses : List ℚ
  percentiles : Percentiles
  isWarmedUp : Bool
deriving DecidableEq, Repr

/-- `interface ResponseRecord` from `src/lib/types.ts`. -/
structure ResponseRecord where
  cardId : String
  answer : ℤ
  correct : Bool
  responseTime : ℚ
  timestamp : ℤ
deriving DecidableEq, Repr

/-- `interface SessionData` from `src/lib/types.ts`. -/
structure SessionData where
  responses : List ResponseRecord
  speedStats : SpeedStats
  lastReviewDate : ℤ
  sessionStartTime : ℤ
  totalSessionTime : ℤ
deriving DecidableEq, Repr

/-- `interface AppSettings` from `src/lib/types.ts`. -/
structure AppSettings where
  warmupTarget : ℤ
  soundEnabled : Bool
  showUpcomingReviews : Bool
  operationMode : OperationMode
  minNumber : ℤ
  maxNumber : ℤ
  nonNegativeSubtraction : Bool
  difficultyMode : DifficultyMode
  timedChallengeEnabled : Bool
  timedChallengeDuration : ℤ
deriving DecidableEq, Repr

/-- `DEFAULT_SETTINGS` from `src/lib/types.ts`. -/
def DEFAULT_SETTINGS : AppSettings :=
  { warmupTarget := 50
    soundEnabled := true
    showUpcomingReviews := true
    operationMode := .mixed
    minNumber := 0
    maxNumber := 20
    nonNegativeSubtraction := true
    difficultyMode := .balanced
    timedChallengeEnabled := false
    timedChallengeDuration := 60 }

/-- `calculateGrade` as given by the Grading Algorithm section of
`src/PLAN.md` (the module `src/lib/grading.ts` that `src/app/page.tsx`
imports it from is not part of the snapshot; the PLAN.md snippet is the
repository's own statement of it). -/
def calculateGrade (correct : Bool) (responseTime : ℚ)
    (speedStats : SpeedStats) : Rating :=
  if !correct then .Again
  else if !speedStats.isWarmedUp then .Good
  else if responseTime ≤ speedStats.percentiles.p25 then .Easy
  else if responseTime ≤ speedStats.percentiles.p50 then .Good
  else if responseTime ≤ speedStats.percentiles.p75 then .Hard
  else .Again

/-- Modelled from the spec: `src/lib/grading.ts` is missing from the
snapshot, so the percentile computation of the Speed Statistics Tracker is
taken from the spec's words, "standard percentile interpolation over sorted
values" — linear interpolation between the two order statistics bracketing
the fractional rank, the usual JS implementation of that phrase. -/
def interpolate (sorted : List ℚ) (idx : ℚ) : ℚ :=
  let lower : ℤ := ⌊idx⌋
  let weight : ℚ := idx - (lower : ℚ)
  if (sorted.length : ℤ) ≤ lower + 1 then sorted.getD lower.toNat 0
  else
    sorted.getD lower.toNat 0 * (1 - weight) +
      sorted.getD (lower.toNat + 1) 0 * weight

/-- Modelled from the spec (continued): the percentile of a sorted history —
interpolation at the fractional rank `(p/100)·(n−1)`; an empty history
yields `0`, the initial percentile value. -/
def percentileOfSorted (sorted : List ℚ) (p : ℚ) : ℚ :=
  if sorted.isEmpty then 0
  else interpolate sorted ((p / 100) * ((sorted.length : ℚ) - 1))

/-- Modelled from the spec: `updateSpeedStats` of the missing
`src/lib/grading.ts`, per spec §4.4 — append the sample to the history,
recompute `p25/p50/p75/p90` by percentile interpolation over the sorted
history, and set `warmedUp` once the history length reaches
`warmupTarget` (once true it stays true). -/
def updateSpeedStats (stats : SpeedStats) (responseTime : ℚ)
    (warmupTarget : ℤ) : SpeedStats :=
  let responses := stats.responses ++ [responseTime]
  let sorted := responses.insertionSort (· ≤ ·)
  { responses := responses
    percentiles :=
      { p25 := percentileOfSorted sorted 25
        p50 := percentileOfSorted sorted 50
        p75 := percentileOfSorted sorted 75
        p90 := percentileOfSorted sorted 90 }
    isWarmedUp := stats.isWarmedUp || decide ((responses.length : ℤ) ≥ warmupTarget) }

/-- Decimal rendering of a natural number, most significant digit first —
the JS template-literal rendering `${n}` of a non-negative integer.
Structural recursion on a fuel argument (`fuel ≥ n` suffices, since the
recursive call is at `n / 10 < n`). -/
def natReprAux : ℕ → ℕ → List Char
  | 0, n => [Nat.digitChar (n % 10)]
  | fuel + 1, n =>
    if n < 10 then [Nat.digitChar n]
    else natReprAux fuel (n / 10) ++ [Nat.digitChar (n % 10)]

/-- Decimal rendering of a natural number (`${n}` in JS). -/
def natRepr (n : ℕ) : List Char := natReprAux n n

/-- Decimal rendering of an integer (`${z}` in JS). -/
def intRepr (z : ℤ) : List Char :=
  if z < 0 then '-' :: natRepr z.natAbs else natRepr z.toNat

/-- Value of a decimal digit character (proof device for id injectivity). -/
def digitVal (c : Char) : ℕ := c.toNat - '0'.toNat

/-- Left fold reading a decimal digit string back into a number. -/
def parseNatAux : ℕ → List Char → ℕ
  | acc, [] => acc
  | acc, c :: cs => parseNatAux (acc * 10 + digitVal c) cs

/-- Read a decimal digit string back into a number. -/
def parseNat (cs : List Char) : ℕ := parseNatAux 0 cs

/-- The string an `ArithmeticOperation` interpolates to in a JS template
literal: its union-member literal from `src/lib/types.ts`. -/
def opName : ArithmeticOperation → List Char
  | .addition => "addition".data
  | .subtraction => "subtraction".data

/-- `createArithmeticCardId` from `src/lib/types.ts`:
``return `arith:${operation}:${left}:${right}`;`` -/
def createArithmeticCardId (operation : ArithmeticOperation)
    (left right : ℤ) : String :=
  ⟨"arith:".data ++ opName operation ++
    ':' :: intRepr left ++ ':' :: intRepr right⟩

/-- `DeckGenerationOptions` from `src/lib/cards.ts`.  `difficultyMode` is a
required field of the TypeScript interface, but `buildDeckFromSettings` in
`src/lib/storage.ts` calls `generateArithmeticDeck` without supplying it, so
at runtime it can be `undefined`; it is modelled as an `Option`. -/
structure DeckGenerationOptions where
  operationMode : OperationMode
  minNumber : ℤ
  maxNumber : ℤ
  nonNegativeSubtraction : Bool
  difficultyMode : Option DifficultyMode
deriving DecidableEq, Repr

/-- The ascending integer sequence a JS
`for (let v = m; v <= M; v++)` loop iterates over. -/
def rangeInt (m M : ℤ) : List ℤ :=
  (List.range (M + 1 - m).toNat).map fun k : ℕ => m + (k : ℤ)

/-- `createArithmeticCard` from `src/lib/cards.ts`. -/
def createArithmeticCard (operation : ArithmeticOperation) (left right : ℤ)
    (difficultyWeight : ℤ) : ArithmeticCard :=
  { id := createArithmeticCardId operation left right
    operation := operation
    left := left
    right := right
    fsrsCard := createEmptyCard
    difficultyWeight := some difficultyWeight }

/-- `computeBoundarySet` from `src/lib/cards.ts`: the multiples of ten from
10 up to `max(maxNumber, 20)` that lie within `[minNumber, maxNumber]`,
plus `maxNumber` itself, deduplicated and sorted ascending. -/
def computeBoundarySet (minNumber maxNumber : ℤ) : List ℤ :=
  let upper := max maxNumber 20
  let tens := ((List.range (upper / 10).toNat).map fun k : ℕ => 10 * ((k : ℤ) + 1)).filter
    fun v => minNumber ≤ v ∧ v ≤ maxNumber
  ((tens ++ [maxNumber]).dedup).insertionSort (· ≤ ·)

/-- `computeDifficultyWeight` from `src/lib/cards.ts`. -/
def computeDifficultyWeight (operation : ArithmeticOperation)
    (left right : ℤ) (options : DeckGenerationOptions)
    (boundaryTargets : List ℤ) : ℤ :=
  if options.difficultyMode ≠ some .focusBoundaries then 1
  else
    let result := if operation = .addition then left + right else left - right
    let bridgesTen :=
      operation = .addition ∧ left % 10 + right % 10 ≥ 10
    let requiresBorrow :=
      operation = .subtraction ∧ left % 10 < right % 10 ∧ left ≥ right
    let nearBoundary := boundaryTargets.any fun target =>
      |left - target| ≤ 2 ∨ |right - target| ≤ 2 ∨ |result - target| ≤ 2
    if bridgesTen ∨ requiresBorrow then 3
    else if nearBoundary then 2
    else 1

/-- `generateAdditionCards` from `src/lib/cards.ts`. -/
def generateAdditionCards (minNumber maxNumber : ℤ)
    (options : DeckGenerationOptions) (boundaryTargets : List ℤ) :
    List ArithmeticCard :=
  (rangeInt minNumber maxNumber).flatMap fun left =>
    (rangeInt minNumber maxNumber).map fun right =>
      createArithmeticCard .addition left right
        (computeDifficultyWeight .addition left right options boundaryTargets)

/-- `generateSubtractionCards` from `src/lib/cards.ts`: the inner loop
`continue`s when `nonNegativeOnly && left - right < 0`. -/
def generateSubtractionCards (minNumber maxNumber : ℤ)
    (nonNegativeOnly : Bool) (options : DeckGenerationOptions)
    (boundaryTargets : List ℤ) : List ArithmeticCard :=
  (rangeInt minNumber maxNumber).flatMap fun left =>
    ((rangeInt minNumber maxNumber).filter fun right =>
        !(nonNegativeOnly && decide (left - right < 0))).map fun right =>
      createArithmeticCard .subtraction left right
        (computeDifficultyWeight .subtraction left right options boundaryTargets)

/-- One step of the Fisher–Yates loop body in `shuffleArray`
(`src/lib/cards.ts`):
`[shuffled[i], shuffled[j]] = [shuffled[j], shuffled[i]]`. -/
def listSwap (d : α) (l : List α) (i j : ℕ) : List α :=
  (l.set i (l.getD j d)).set j (l.getD i d)

/-- The Fisher–Yates loop of `shuffleArray`, counting `i` down; the random
draw `Math.floor(Math.random() * (i + 1))` is modelled by the oracle value
`rand i` reduced `mod (i + 1)`. -/
def shuffleAux (rand : ℕ → ℕ) (d : α) : ℕ → List α → List α
  | 0, l => l
  | i + 1, l => shuffleAux rand d i (listSwap d l (i + 1) (rand (i + 1) % (i + 2)))

/-- `shuffleArray` from `src/lib/cards.ts`: Fisher–Yates over a copy, with
randomness supplied by the oracle `rand`. -/
def shuffleArray (rand : ℕ → ℕ) (d : α) (l : List α) : List α :=
  shuffleAux rand d (l.length - 1) l

/-- A throwaway default element for the `getD` accesses of the shuffle
model (never actually read: the shuffle only indexes in bounds). -/
def defaultCard : ArithmeticCard := createArithmeticCard .addition 0 0 1

/-- `generateArithmeticDeck` from `src/lib/cards.ts`. -/
def generateArithmeticDeck (rand : ℕ → ℕ)
    (options : DeckGenerationOptions) : List ArithmeticCard :=
  let boundaryTargets := computeBoundarySet options.minNumber options.maxNumber
  let additionCards :=
    if options.operationMode = .addition ∨ options.operationMode = .mixed then
      generateAdditionCards options.minNumber options.maxNumber options boundaryTargets
    else []
  let subtractionCards :=
    if options.operationMode = .subtraction ∨ options.operationMode = .mixed then
      generateSubtractionCards options.minNumber options.maxNumber
        options.nonNegativeSubtraction options boundaryTargets
    else []
  shuffleArray rand defaultCard (additionCards ++ subtractionCards)

/-- `createDefaultSessionData` from `src/lib/storage.ts`, with `new Date()`
modelled by the explicit timestamp `now`. -/
def createDefaultSessionData (now : ℤ) : SessionData :=
  { responses := []
    speedStats :=
      { responses := []
        percentiles := { p25 := 0, p50 := 0, p75 := 0, p90 := 0 }
        isWarmedUp := false }
    lastReviewDate := now
    sessionStartTime := now
    totalSessionTime := 0 }

/-- `normalizeSettings` from `src/lib/storage.ts`.  The `Partial` merge with
the defaults is already resolved (the input is a full record); `Math.floor`
and the NaN fallback of `normalizeNumber` are identities on the integer
model. -/
def normalizeSettings (merged : AppSettings) : AppSettings :=
  let minNumber := max 0 merged.minNumber
  let maxNumber := max minNumber merged.maxNumber
  let warmupTarget := max 1 merged.warmupTarget
  { merged with
      minNumber := minNumber
      maxNumber := maxNumber
      warmupTarget := warmupTarget }

/-- `buildDeckFromSettings` from `src/lib/storage.ts`: note the object
literal passed to `generateArithmeticDeck` has no `difficultyMode` entry, so
the options record carries `none` there. -/
def buildDeckFromSettings (rand : ℕ → ℕ) (settings : AppSettings) :
    List ArithmeticCard :=
  generateArithmeticDeck rand
    { operationMode := settings.operationMode
      minNumber := settings.minNumber
      maxNumber := settings.maxNumber
      nonNegativeSubtraction := settings.nonNegativeSubtraction
      difficultyMode := none }

/-- The three localStorage slots used by `src/lib/storage.ts`
(`multiplicationCards`, `sessionData`, `appSettings`); `none` models an
absent or unparseable slot. -/
structure StorageState where
  cards : Option (List ArithmeticCard)
  session : Option SessionData
  settings : Option AppSettings
deriving DecidableEq, Repr

/-- `loadSettings` from `src/lib/storage.ts`: normalise what is stored (and
write the normalised value back), or install the defaults. -/
def loadSettings (st : StorageState) : AppSettings × StorageState :=
  match st.settings with
  | some stored =>
    let settings := normalizeSettings stored
    (settings, { st with settings := some settings })
  | none =>
    (DEFAULT_SETTINGS, { st with settings := some (normalizeSettings DEFAULT_SETTINGS) })

/-- `resetSession` from `src/lib/storage.ts`. -/
def resetSession (now : ℤ) (st : StorageState) : SessionData × StorageState :=
  let session := createDefaultSessionData now
  (session, { st with session := some session })

/-- `regenerateDeck` from `src/lib/storage.ts`.  `customSettings` is the
optional argument, `resetSessionOpt` the optional `options.resetSession`
(defaulting to `true` via `?? true`). -/
def regenerateDeck (rand : ℕ → ℕ) (now : ℤ)
    (customSettings : Option AppSettings) (resetSessionOpt : Option Bool)
    (st : StorageState) : List ArithmeticCard × StorageState :=
  let (baseSettings, st₁) :=
    match customSettings with
    | some s => (s, st)
    | none => loadSettings st
  let settings := normalizeSettings baseSettings
  let deck := buildDeckFromSettings rand settings
  let st₂ := { st₁ with cards := some deck }
  if resetSessionOpt.getD true then
    let (_, st₃) := resetSession now st₂
    (deck, st₃)
  else (deck, st₂)

/-- A persisted card as JSON hands it back: every field optional (absent or
of the wrong type ↦ `none`).  The `operation` field is kept as the raw
string it is checked against in `hydrateArithmeticCard`. -/
structure RawCard where
  id : Option String
  operationField : Option String
  left : Option ℤ
  right : Option ℤ
  fsrsCard : Option FsrsCard
  difficultyWeight : Option ℤ
deriving DecidableEq, Repr

/-- The union-member literal of an operation, as `JSON.stringify` writes it. -/
def opString : ArithmeticOperation → String
  | .addition => "addition"
  | .subtraction => "subtraction"

/-- `hydrateFsrsCard` from `src/lib/storage.ts`: re-wraps the timestamps as
`Date`s — the identity on the integer-timestamp model. -/
def hydrateFsrsCard (fsrsCard : FsrsCard) : FsrsCard :=
  { due := fsrsCard.due, lastReview := fsrsCard.lastReview }

/-- `hydrateArithmeticCard` from `src/lib/storage.ts`: validates the
persisted shape and rebuilds the card.  The returned object literal has no
`difficultyWeight` property, so the result always carries `none` there. -/
def hydrateArithmeticCard (raw : RawCard) : Option ArithmeticCard :=
  match raw.id, raw.operationField, raw.left, raw.right, raw.fsrsCard with
  | some id, some op, some left, some right, some fsrsCard =>
    if op = "addition" then
      some { id := id, operation := .addition, left := left, right := right,
             fsrsCard := hydrateFsrsCard fsrsCard, difficultyWeight := none }
    else if op = "subtraction" then
      some { id := id, operation := .subtraction, left := left, right := right,
             fsrsCard := hydrateFsrsCard fsrsCard, difficultyWeight := none }
    else none
  | _, _, _, _, _ => none

/-- `JSON.stringify` of an `ArithmeticCard` (as `saveCards` performs it),
read back as the raw record `JSON.parse` yields: every present field
survives, including `difficultyWeight` when the card has one. -/
def serializeCard (card : ArithmeticCard) : RawCard :=
  { id := some card.id
    operationField := some (opString card.operation)
    left := some card.left
    right := some card.right
    fsrsCard := some card.fsrsCard
    difficultyWeight := card.difficultyWeight }

/-- The grading portion of `handleSubmitAnswer` in `src/app/page.tsx`
(`src/unnamed/part_001`): the handler first folds the current response time
into the speed statistics and then grades with the updated statistics,
returning the rating together with the statistics it stores. -/
def handleSubmitGrading (stats : SpeedStats) (correct : Bool)
    (responseTime : ℚ) (warmupTarget : ℤ) : Rating × SpeedStats :=
  let newSpeedStats := updateSpeedStats stats responseTime warmupTarget
  let rating := calculateGrade correct responseTime newSpeedStats
  (rating, newSpeedStats)

/-! ## Helper lemmas: the shuffle is a permutation -/

theorem coe_eq_take_cons_drop {α : Type} (l : List α) (n : ℕ) (h : n < l.length) :
    (l : Multiset α) = ↑(l.take n) + (l[n] ::ₘ ↑(l.drop (n + 1))) := by
  conv_lhs => rw [← List.take_append_drop n l, ← List.getElem_cons_drop l n h]
  simp

theorem coe_set_eq {α : Type} (l : List α) (n : ℕ) (h : n < l.length) (a : α) :
    ((l.set n a : List α) : Multiset α) = ↑(l.take n) + (a ::ₘ ↑(l.drop (n + 1))) := by
  rw [List.set_eq_take_append_cons_drop, if_pos h]
  simp

theorem listSwap_perm {α : Type} (d : α) (l : List α) {i j : ℕ}
    (hi : i < l.length) (hj : j < l.length) :
    (listSwap d l i j).Perm l := by
  rw [← Multiset.coe_eq_coe]
  unfold listSwap
  rw [List.getD_eq_getElem _ _ hi, List.getD_eq_getElem _ _ hj]
  have hj' : j < (l.set i l[j]).length := by simpa using hj
  have hset : (l.set i l[j])[j] = l[j] := by
    rcases eq_or_ne i j with rfl | hij
    · simp
    · simp [List.getElem_set_ne hij]
  have h1 : ((l.set i l[j] : List α) : Multiset α) =
      ↑(l.take i) + (l[j] ::ₘ ↑(l.drop (i + 1))) := coe_set_eq l i hi _
  have h2 : ((l.set i l[j] : List α) : Multiset α) =
      ↑((l.set i l[j]).take j) + (l[j] ::ₘ ↑((l.set i l[j]).drop (j + 1))) := by
    rw [coe_eq_take_cons_drop (l.set i l[j]) j hj', hset]
  have h3 : (((l.set i l[j]).set j l[i] : List α) : Multiset α) =
      ↑((l.set i l[j]).take j) + (l[i] ::ₘ ↑((l.set i l[j]).drop (j + 1))) :=
    coe_set_eq _ j hj' _
  have h4 : (l : Multiset α) = ↑(l.take i) + (l[i] ::ₘ ↑(l.drop (i + 1))) :=
    coe_eq_take_cons_drop l i hi
  have key : (((l.set i l[j]).set j l[i] : List α) : Multiset α) + {l[j]} =
      (l : Multiset α) + {l[j]} := by
    rw [h3, h4]
    have e1 : ↑((l.set i l[j]).take j) + (l[i] ::ₘ ↑((l.set i l[j]).drop (j + 1))) + ({l[j]} : Multiset α) =
        (↑((l.set i l[j]).take j) + (l[j] ::ₘ ↑((l.set i l[j]).drop (j + 1)))) + ({l[i]} : Multiset α) := by
      simp only [← Multiset.singleton_add]
      abel
    have e2 : ↑(l.take i) + (l[i] ::ₘ ↑(l.drop (i + 1))) + ({l[j]} : Multiset α) =
        (↑(l.take i) + (l[j] ::ₘ ↑(l.drop (i + 1)))) + ({l[i]} : Multiset α) := by
      simp only [← Multiset.singleton_add]
      abel
    rw [e1, e2, ← h2, h1]
  exact add_right_cancel key

theorem shuffleAux_perm {α : Type} (rand : ℕ → ℕ) (d : α) :
    ∀ (n : ℕ) (l : List α), n < l.length → (shuffleAux rand d n l).Perm l
  | 0, _, _ => List.Perm.refl _
  | i + 1, l, h => by
    have hjlt : rand (i + 1) % (i + 2) < l.length :=
      lt_of_le_of_lt (Nat.le_of_lt_succ (Nat.mod_lt _ (Nat.succ_pos _))) h
    have hswap := listSwap_perm d l h hjlt
    have hlen := hswap.length_eq
    have hrec := shuffleAux_perm rand d i
      (listSwap d l (i + 1) (rand (i + 1) % (i + 2)))
      (by rw [hlen]; exact Nat.lt_of_succ_lt h)
    exact (shuffleAux.eq_def rand d (i + 1) l ▸ hrec).trans hswap

theorem shuffleArray_perm {α : Type} (rand : ℕ → ℕ) (d : α) (l : List α) :
    (shuffleArray rand d l).Perm l := by
  cases l with
  | nil => exact List.Perm.refl _
  | cons a t =>
    exact shuffleAux_perm rand d _ _ (by simp)

/-! ## Helper lemmas: integer ranges -/

theorem mem_rangeInt {m M v : ℤ} : v ∈ rangeInt m M ↔ m ≤ v ∧ v ≤ M := by
  simp only [rangeInt, List.mem_map, List.mem_range]
  constructor
  · rintro ⟨k, hk, rfl⟩
    omega
  · rintro ⟨h1, h2⟩
    exact ⟨(v - m).toNat, by omega, by omega⟩

theorem length_rangeInt (m M : ℤ) : (rangeInt m M).length = (M + 1 - m).toNat := by
  simp [rangeInt]

theorem length_filter_range_le (B : ℤ) (N : ℕ) :
    ((List.range N).filter fun k : ℕ => decide ((k : ℤ) ≤ B)).length =
      min (B + 1).toNat N := by
  induction N with
  | zero => simp
  | succ n ih =>
    rw [List.range_succ, List.filter_append, List.length_append, ih]
    by_cases h : (n : ℤ) ≤ B
    · simp [h]
      omega
    · simp [h]
      omega

/-! ## Helper lemmas: generated card shapes and counts -/

theorem mem_generateAdditionCards {m M : ℤ} {options : DeckGenerationOptions}
    {ts : List ℤ} {c : ArithmeticCard}
    (hc : c ∈ generateAdditionCards m M options ts) :
    c.operation = .addition ∧ m ≤ c.left ∧ c.left ≤ M ∧
      m ≤ c.right ∧ c.right ≤ M ∧ c.difficultyWeight =
        some (computeDifficultyWeight .addition c.left c.right options ts) := by
  simp only [generateAdditionCards, List.mem_flatMap, List.mem_map] at hc
  obtain ⟨left, hleft, right, hright, rfl⟩ := hc
  obtain ⟨h1, h2⟩ := mem_rangeInt.mp hleft
  obtain ⟨h3, h4⟩ := mem_rangeInt.mp hright
  exact ⟨rfl, h1, h2, h3, h4, rfl⟩

theorem mem_generateSubtractionCards {m M : ℤ} {nn : Bool}
    {options : DeckGenerationOptions} {ts : List ℤ} {c : ArithmeticCard}
    (hc : c ∈ generateSubtractionCards m M nn options ts) :
    c.operation = .subtraction ∧ m ≤ c.left ∧ c.left ≤ M ∧
      m ≤ c.right ∧ c.right ≤ M ∧ (nn = true → c.right ≤ c.left) ∧
      c.difficultyWeight =
        some (computeDifficultyWeight .subtraction c.left c.right options ts) := by
  simp only [generateSubtractionCards, List.mem_flatMap, List.mem_map,
    List.mem_filter] at hc
  obtain ⟨left, hleft, right, ⟨hright, hfilter⟩, rfl⟩ := hc
  obtain ⟨h1, h2⟩ := mem_rangeInt.mp hleft
  obtain ⟨h3, h4⟩ := mem_rangeInt.mp hright
  refine ⟨rfl, h1, h2, h3, h4, ?_, rfl⟩
  intro hnn
  subst hnn
  simp only [Bool.true_and, Bool.not_eq_eq_eq_not, Bool.not_true,
    decide_eq_false_iff_not, not_lt] at hfilter
  show right ≤ left
  omega

theorem length_generateAdditionCards (m M : ℤ)
    (options : DeckGenerationOptions) (ts : List ℤ) :
    (generateAdditionCards m M options ts).length =
      (M + 1 - m).toNat * (M + 1 - m).toNat := by
  simp [generateAdditionCards, rangeInt, Function.comp_def]

theorem length_generateSubtractionCards_nonNeg (m M : ℤ)
    (options : DeckGenerationOptions) (ts : List ℤ) :
    (generateSubtractionCards m M true options ts).length =
      ((List.range (M + 1 - m).toNat).map fun k : ℕ => min (k + 1) (M + 1 - m).toNat).sum := by
  simp only [generateSubtractionCards, rangeInt, List.length_flatMap, List.map_map]
  congr 1
  apply List.map_congr_left
  intro k hk
  simp only [Function.comp_apply, List.length_map, List.filter_map]
  rw [show ((fun right => !(true && decide (m + (k : ℕ) - right < 0))) ∘
        fun j : ℕ => m + (j : ℤ)) =
      fun j : ℕ => decide ((j : ℤ) ≤ ((k : ℕ) : ℤ)) from ?_]
  · rw [length_filter_range_le]
    omega
  · funext j
    simp only [Function.comp_apply]
    by_cases h : (j : ℤ) ≤ ((k : ℕ) : ℤ)
    · have h' : ¬(m + (k : ℕ) - (m + (j : ℕ)) < 0) := by omega
      rw [decide_eq_false h', decide_eq_true h]
      rfl
    · have h' : m + (k : ℕ) - (m + (j : ℕ)) < 0 := by omega
      rw [decide_eq_true h', decide_eq_false h]
      rfl

theorem Icc_insert_top {m M : ℤ} (h : m ≤ M) :
    Finset.Icc m M = insert M (Finset.Icc m (M - 1)) := by
  ext x
  simp only [Finset.mem_Icc, Finset.mem_insert]
  omega

theorem listSum_min_eq_sum_Icc (m : ℤ) : ∀ N : ℕ,
    ((((List.range N).map fun k : ℕ => min (k + 1) N).sum : ℕ) : ℤ) =
      ∑ l ∈ Finset.Icc m (m + N - 1), (l - m + 1) := by
  have step : ∀ N : ℕ,
      (((List.range N).map fun k : ℕ => min (k + 1) N).sum : ℕ) =
        (((List.range N).map fun k : ℕ => k + 1).sum : ℕ) := by
    intro N
    congr 1
    apply List.map_congr_left
    intro k hk
    rw [List.mem_range] at hk
    omega
  intro N
  rw [step]
  induction N with
  | zero =>
    rw [show m + ((0 : ℕ) : ℤ) - 1 = m - 1 from by push_cast; ring]
    rw [Finset.Icc_eq_empty (by omega)]
    simp
  | succ n ih =>
    rw [List.range_succ, List.map_append, List.sum_append]
    rw [show m + ((n + 1 : ℕ) : ℤ) - 1 = m + (n : ℕ) from by push_cast; ring]
    rw [Icc_insert_top (by omega), Finset.sum_insert (by simp)]
    rw [Nat.cast_add, ih]
    simp only [List.map_cons, List.map_nil, List.sum_cons, List.sum_nil]
    push_cast
    ring

/-! ## Claim theorems -/

/-- C1: `calculateGrade` is total and returns one of the four ratings; an
incorrect answer yields `Again` regardless of time and warmup state; a
correct answer before warmup yields `Good`; after warmup the thresholds
`≤ p25 ↦ Easy`, `(p25, p50] ↦ Good`, `(p50, p75] ↦ Hard`, else `Again`
apply (the last two cases read, as in the spec, under the percentile
ordering `p25 ≤ p50 ≤ p75` that the statistics tracker maintains). -/
theorem calculateGrade_total_and_thresholds :
    (∀ (correct : Bool) (t : ℚ) (s : SpeedStats),
      calculateGrade correct t s = .Again ∨ calculateGrade correct t s = .Hard ∨
        calculateGrade correct t s = .Good ∨ calculateGrade correct t s = .Easy) ∧
    (∀ (t : ℚ) (s : SpeedStats), calculateGrade false t s = .Again) ∧
    (∀ (t : ℚ) (s : SpeedStats), s.isWarmedUp = false →
      calculateGrade true t s = .Good) ∧
    (∀ (t : ℚ) (s : SpeedStats), s.isWarmedUp = true →
      (t ≤ s.percentiles.p25 → calculateGrade true t s = .Easy) ∧
      (s.percentiles.p25 < t → t ≤ s.percentiles.p50 →
        calculateGrade true t s = .Good) ∧
      (s.percentiles.p25 ≤ s.percentiles.p50 → s.percentiles.p50 < t →
        t ≤ s.percentiles.p75 → calculateGrade true t s = .Hard) ∧
      (s.percentiles.p25 ≤ s.percentiles.p50 →
        s.percentiles.p50 ≤ s.percentiles.p75 → s.percentiles.p75 < t →
        calculateGrade true t s = .Again)) := by
  refine ⟨?_, ?_, ?_, ?_⟩
  · intro correct t s
    unfold calculateGrade
    split_ifs <;> simp
  · intro t s
    simp [calculateGrade]
  · intro t s h
    simp [calculateGrade, h]
  · intro t s h
    refine ⟨?_, ?_, ?_, ?_⟩
    · intro h1
      simp [calculateGrade, h, h1]
    · intro h1 h2
      simp [calculateGrade, h, not_le.mpr h1, h2]
    · intro h0 h2 h3
      simp [calculateGrade, h, not_le.mpr (lt_of_le_of_lt h0 h2), not_le.mpr h2, h3]
    · intro h0 h0' h3
      have hp25 : ¬ t ≤ s.percentiles.p25 :=
        not_le.mpr (lt_of_le_of_lt (le_trans h0 h0') h3)
      have hp50 : ¬ t ≤ s.percentiles.p50 := not_le.mpr (lt_of_le_of_lt h0' h3)
      simp [calculateGrade, h, hp25, hp50, not_le.mpr h3]

/-- Witness for C1 at a concrete warmed-up statistics value. -/
theorem calculateGrade_total_and_thresholds_witness :
    calculateGrade true 15 ⟨[], ⟨10, 20, 30, 40⟩, true⟩ = .Good ∧
    calculateGrade false 15 ⟨[], ⟨10, 20, 30, 40⟩, true⟩ = .Again :=
  ⟨(calculateGrade_total_and_thresholds.2.2.2 15 ⟨[], ⟨10, 20, 30, 40⟩, true⟩ rfl).2.1
      (by norm_num) (by norm_num),
    calculateGrade_total_and_thresholds.2.1 15 ⟨[], ⟨10, 20, 30, 40⟩, true⟩⟩

/-- C5: `computeDifficultyWeight` always returns 1, 2 or 3 (hence never
below 1), and in `balanced` difficulty mode it returns exactly 1. -/
theorem computeDifficultyWeight_range_and_balanced :
    ∀ (op : ArithmeticOperation) (l r : ℤ) (options : DeckGenerationOptions)
      (ts : List ℤ),
      (computeDifficultyWeight op l r options ts = 1 ∨
        computeDifficultyWeight op l r options ts = 2 ∨
        computeDifficultyWeight op l r options ts = 3) ∧
      (options.difficultyMode = some .balanced →
        computeDifficultyWeight op l r options ts = 1) := by
  intro op l r options ts
  constructor
  · simp only [computeDifficultyWeight]
    split_ifs <;> simp
  · intro h
    unfold computeDifficultyWeight
    rw [if_pos (by simp [h])]

/-- Witness for C5 at a concrete balanced-mode input. -/
theorem computeDifficultyWeight_range_and_balanced_witness :
    computeDifficultyWeight .addition 7 5 ⟨.addition, 0, 9, true, some .balanced⟩ [9] = 1 :=
  (computeDifficultyWeight_range_and_balanced .addition 7 5
    ⟨.addition, 0, 9, true, some .balanced⟩ [9]).2 rfl

/-- C3: in an addition or mixed deck with a valid range, every addition
card's operands lie in `[m, M]`, and the number of addition cards is
`(M − m + 1)²` — for every run of the shuffle oracle. -/
theorem generateArithmeticDeck_addition_bounds_and_count (rand : ℕ → ℕ)
    (options : DeckGenerationOptions)
    (hm : options.minNumber ≤ options.maxNumber)
    (hmode : options.operationMode = .addition ∨ options.operationMode = .mixed) :
    (∀ c ∈ generateArithmeticDeck rand options, c.operation = .addition →
      options.minNumber ≤ c.left ∧ c.left ≤ options.maxNumber ∧
        options.minNumber ≤ c.right ∧ c.right ≤ options.maxNumber) ∧
    (((generateArithmeticDeck rand options).countP
        fun c => decide (c.operation = .addition)) : ℤ) =
      (options.maxNumber - options.minNumber + 1) ^ 2 := by
  simp only [generateArithmeticDeck]
  set ts := computeBoundarySet options.minNumber options.maxNumber with hts
  set A := if options.operationMode = .addition ∨ options.operationMode = .mixed then
      generateAdditionCards options.minNumber options.maxNumber options ts
    else [] with hA
  set B := if options.operationMode = .subtraction ∨ options.operationMode = .mixed then
      generateSubtractionCards options.minNumber options.maxNumber
        options.nonNegativeSubtraction options ts
    else [] with hB
  have hperm := shuffleArray_perm rand defaultCard (A ++ B)
  constructor
  · intro c hc hop
    rw [hperm.mem_iff] at hc
    rcases List.mem_append.mp hc with h | h
    · rw [hA, if_pos hmode] at h
      obtain ⟨_, h1, h2, h3, h4, _⟩ := mem_generateAdditionCards h
      exact ⟨h1, h2, h3, h4⟩
    · rw [hB] at h
      by_cases hsub : options.operationMode = .subtraction ∨ options.operationMode = .mixed
      · rw [if_pos hsub] at h
        have := (mem_generateSubtractionCards h).1
        rw [hop] at this
        exact absurd this (by simp)
      · rw [if_neg hsub] at h
        exact absurd h (List.not_mem_nil c)
  · rw [hperm.countP_eq, List.countP_append]
    have hBzero : (B.countP fun c => decide (c.operation = .addition)) = 0 := by
      rw [hB]
      by_cases hsub : options.operationMode = .subtraction ∨ options.operationMode = .mixed
      · rw [if_pos hsub]
        rw [List.countP_eq_zero]
        intro a ha
        have := (mem_generateSubtractionCards ha).1
        simp [this]
      · rw [if_neg hsub]
        simp
    have hAlen : (A.countP fun c => decide (c.operation = .addition)) = A.length := by
      rw [List.countP_eq_length]
      intro a ha
      rw [hA, if_pos hmode] at ha
      exact decide_eq_true (mem_generateAdditionCards ha).1
    rw [hBzero, hAlen, hA, if_pos hmode, length_generateAdditionCards]
    push_cast
    rw [Int.toNat_of_nonneg (by omega)]
    ring

/-- Witness for C3: a pure-addition deck over `[0, 1]` has `2² = 4`
addition cards. -/
theorem generateArithmeticDeck_addition_bounds_and_count_witness :
    (((generateArithmeticDeck (fun _ => 0) ⟨.addition, 0, 1, true, none⟩).countP
        fun c => decide (c.operation = .addition)) : ℤ) = (1 - 0 + 1) ^ 2 :=
  (generateArithmeticDeck_addition_bounds_and_count (fun _ => 0)
    ⟨.addition, 0, 1, true, none⟩ (by norm_num) (Or.inl rfl)).2

/-- C4: in a subtraction or mixed deck with a valid range and
`nonNegativeSubtraction = true`, every subtraction card satisfies
`left ≥ right`, and the number of subtraction cards is
`Σ_{left=m}^{M} (left − m + 1)` — for every run of the shuffle oracle. -/
theorem generateArithmeticDeck_subtraction_nonneg_and_count (rand : ℕ → ℕ)
    (options : DeckGenerationOptions)
    (hm : options.minNumber ≤ options.maxNumber)
    (hmode : options.operationMode = .subtraction ∨ options.operationMode = .mixed)
    (hnn : options.nonNegativeSubtraction = true) :
    (∀ c ∈ generateArithmeticDeck rand options, c.operation = .subtraction →
      c.right ≤ c.left) ∧
    (((generateArithmeticDeck rand options).countP
        fun c => decide (c.operation = .subtraction)) : ℤ) =
      ∑ l ∈ Finset.Icc options.minNumber options.maxNumber,
        (l - options.minNumber + 1) := by
  simp only [generateArithmeticDeck]
  set ts := computeBoundarySet options.minNumber options.maxNumber with hts
  set A := if options.operationMode = .addition ∨ options.operationMode = .mixed then
      generateAdditionCards options.minNumber options.maxNumber options ts
    else [] with hA
  set B := if options.operationMode = .subtraction ∨ options.operationMode = .mixed then
      generateSubtractionCards options.minNumber options.maxNumber
        options.nonNegativeSubtraction options ts
    else [] with hB
  have hperm := shuffleArray_perm rand defaultCard (A ++ B)
  constructor
  · intro c hc hop
    rw [hperm.mem_iff] at hc
    rcases List.mem_append.mp hc with h | h
    · rw [hA] at h
      by_cases hadd : options.operationMode = .addition ∨ options.operationMode = .mixed
      · rw [if_pos hadd] at h
        have := (mem_generateAdditionCards h).1
        rw [hop] at this
        exact absurd this (by simp)
      · rw [if_neg hadd] at h
        exact absurd h (List.not_mem_nil c)
    · rw [hB, if_pos hmode, hnn] at h
      exact (mem_generateSubtractionCards h).2.2.2.2.2.1 rfl
  · rw [hperm.countP_eq, List.countP_append]
    have hAzero : (A.countP fun c => decide (c.operation = .subtraction)) = 0 := by
      rw [hA]
      by_cases hadd : options.operationMode = .addition ∨ options.operationMode = .mixed
      · rw [if_pos hadd]
        rw [List.countP_eq_zero]
        intro a ha
        have := (mem_generateAdditionCards ha).1
        simp [this]
      · rw [if_neg hadd]
        simp
    have hBlen : (B.countP fun c => decide (c.operation = .subtraction)) = B.length := by
      rw [List.countP_eq_length]
      intro a ha
      rw [hB, if_pos hmode] at ha
      exact decide_eq_true (mem_generateSubtractionCards ha).1
    rw [hAzero, hBlen, hB, if_pos hmode, hnn]
    rw [length_generateSubtractionCards_nonNeg, Nat.zero_add]
    rw [listSum_min_eq_sum_Icc options.minNumber]
    rw [show options.minNumber +
        (((options.maxNumber + 1 - options.minNumber).toNat : ℕ) : ℤ) - 1 =
        options.maxNumber from by omega]

/-- Witness for C4: a pure-subtraction deck over `[0, 1]` with the
non-negative restriction has `1 + 2 = 3` subtraction cards. -/
theorem generateArithmeticDeck_subtraction_nonneg_and_count_witness :
    (((generateArithmeticDeck (fun _ => 0) ⟨.subtraction, 0, 1, true, none⟩).countP
        fun c => decide (c.operation = .subtraction)) : ℤ) =
      ∑ l ∈ Finset.Icc (0 : ℤ) 1, (l - 0 + 1) :=
  (generateArithmeticDeck_subtraction_nonneg_and_count (fun _ => 0)
    ⟨.subtraction, 0, 1, true, none⟩ (by norm_num) (Or.inl rfl) rfl).2

/-- C6: the storage module's deck-building path passes no `difficultyMode`
to `generateArithmeticDeck`, so every card of a deck built through it has
difficulty weight 1 — for every settings value, including
`difficultyMode = focus-boundaries`. -/
theorem buildDeckFromSettings_weight_one :
    ∀ (rand : ℕ → ℕ) (settings : AppSettings) (c : ArithmeticCard),
      c ∈ buildDeckFromSettings rand settings → c.difficultyWeight = some 1 := by
  intro rand settings c hc
  simp only [buildDeckFromSettings, generateArithmeticDeck] at hc
  rw [(shuffleArray_perm rand defaultCard _).mem_iff] at hc
  rcases List.mem_append.mp hc with h | h
  · by_cases hadd : settings.operationMode = .addition ∨ settings.operationMode = .mixed
    · rw [if_pos hadd] at h
      have := (mem_generateAdditionCards h).2.2.2.2.2
      rw [this]
      congr 1
    · rw [if_neg hadd] at h
      exact absurd h (List.not_mem_nil c)
  · by_cases hsub : settings.operationMode = .subtraction ∨ settings.operationMode = .mixed
    · rw [if_pos hsub] at h
      have := (mem_generateSubtractionCards h).2.2.2.2.2.2
      rw [this]
      congr 1
    · rw [if_neg hsub] at h
      exact absurd h (List.not_mem_nil c)

/-- Witness for C6: the single card of the `[0, 0]` addition deck built
through the storage path under `focus-boundaries` settings has weight 1. -/
theorem buildDeckFromSettings_weight_one_witness :
    ({ id := "arith:addition:0:0", operation := .addition, left := 0, right := 0,
       fsrsCard := ⟨0, none⟩, difficultyWeight := some 1 } : ArithmeticCard).difficultyWeight
      = some 1 :=
  buildDeckFromSettings_weight_one (fun _ => 0)
    ⟨50, true, true, .addition, 0, 0, true, .focusBoundaries, false, 60⟩ _ (by decide)

/-- C2 counterexample: with `warmupTarget = 1`, empty prior statistics and a
correct answer in 100 ms, the handler's recorded rating is `Easy` (it grades
with the statistics *after* folding in the current sample, which completes
the warmup and sets every percentile to 100), while the grade computed from
the statistics as they were *before* the sample is `Good` — so the claim
fails on the code. -/
theorem handleSubmitGrading_before_stats_counterexample :
    (handleSubmitGrading ⟨[], ⟨0, 0, 0, 0⟩, false⟩ true 100 1).1 = .Easy ∧
    calculateGrade true 100 ⟨[], ⟨0, 0, 0, 0⟩, false⟩ = .Good ∧
    (handleSubmitGrading ⟨[], ⟨0, 0, 0, 0⟩, false⟩ true 100 1).1 ≠
      calculateGrade true 100 ⟨[], ⟨0, 0, 0, 0⟩, false⟩ := by
  have hupd : updateSpeedStats ⟨[], ⟨0, 0, 0, 0⟩, false⟩ 100 1 =
      ⟨[100], ⟨100, 100, 100, 100⟩, true⟩ := by
    simp only [updateSpeedStats]
    norm_num [List.insertionSort, percentileOfSorted, interpolate]
  have h1 : (handleSubmitGrading ⟨[], ⟨0, 0, 0, 0⟩, false⟩ true 100 1).1 = .Easy := by
    show calculateGrade true 100 (updateSpeedStats ⟨[], ⟨0, 0, 0, 0⟩, false⟩ 100 1) = .Easy
    rw [hupd]
    norm_num [calculateGrade]
  refine ⟨h1, rfl, ?_⟩
  rw [h1]
  intro hcontra
  exact absurd hcontra.symm (by simp [calculateGrade])

/-- C2 amended: the rating the answer-submission handler records equals the
grade computed from the speed statistics *after* incorporating the current
response's sample (the statistics it also stores), not before. -/
theorem handleSubmitGrading_rating_from_updated_stats :
    ∀ (stats : SpeedStats) (correct : Bool) (t : ℚ) (wt : ℤ),
      (handleSubmitGrading stats correct t wt).1 =
        calculateGrade correct t (updateSpeedStats stats t wt) ∧
      (handleSubmitGrading stats correct t wt).2 = updateSpeedStats stats t wt :=
  fun _ _ _ _ => ⟨rfl, rfl⟩

/-- C7: every card accepted by the persisted-card hydration comes back with
no `difficultyWeight`; consequently a save/load round trip cannot return a
card that still carries its difficulty weight. -/
theorem hydrateArithmeticCard_drops_weight :
    (∀ (raw : RawCard) (c : ArithmeticCard),
      hydrateArithmeticCard raw = some c → c.difficultyWeight = none) ∧
    (∀ (card c : ArithmeticCard), card.difficultyWeight.isSome →
      hydrateArithmeticCard (serializeCard card) = some c → c ≠ card) := by
  have h1 : ∀ (raw : RawCard) (c : ArithmeticCard),
      hydrateArithmeticCard raw = some c → c.difficultyWeight = none := by
    intro raw c h
    unfold hydrateArithmeticCard at h
    split at h
    · split_ifs at h
      · injection h with h'
        rw [← h']
      · injection h with h'
        rw [← h']
    · simp at h
  refine ⟨h1, ?_⟩
  intro card c hw h hEq
  rw [hEq] at h
  have := h1 _ _ h
  rw [this] at hw
  simp at hw

/-- Witness for C7: hydrating the serialisation of a freshly generated card
(weight 1) yields a different card, with its weight gone. -/
theorem hydrateArithmeticCard_drops_weight_witness :
    ({ id := "arith:addition:2:3", operation := .addition, left := 2, right := 3,
       fsrsCard := ⟨0, none⟩, difficultyWeight := none } : ArithmeticCard) ≠
      createArithmeticCard .addition 2 3 1 :=
  hydrateArithmeticCard_drops_weight.2 (createArithmeticCard .addition 2 3 1)
    { id := "arith:addition:2:3", operation := .addition, left := 2, right := 3,
      fsrsCard := ⟨0, none⟩, difficultyWeight := none } rfl (by decide)

/-- C9: `regenerateDeck` (with its default session reset) installs exactly
the deck freshly generated from the supplied settings and the freshly reset
session statistics — whatever cards or session data the storage held before,
the outputs are the same. -/
theorem regenerateDeck_replaces_deck_and_resets_session :
    ∀ (rand : ℕ → ℕ) (now : ℤ) (settings : AppSettings) (st : StorageState),
      (regenerateDeck rand now (some settings) none st).1 =
          buildDeckFromSettings rand (normalizeSettings settings) ∧
      (regenerateDeck rand now (some settings) none st).2.cards =
          some (buildDeckFromSettings rand (normalizeSettings settings)) ∧
      (regenerateDeck rand now (some settings) none st).2.session =
          some (createDefaultSessionData now) :=
  fun _ _ _ _ => ⟨rfl, rfl, rfl⟩

/-! ## Helper lemmas: card-id injectivity (C8) -/

theorem parseNatAux_append (acc : ℕ) (xs ys : List Char) :
    parseNatAux acc (xs ++ ys) = parseNatAux (parseNatAux acc xs) ys := by
  induction xs generalizing acc with
  | nil => rfl
  | cons c cs ih =>
    rw [List.cons_append,
      show parseNatAux acc (c :: (cs ++ ys)) =
        parseNatAux (acc * 10 + digitVal c) (cs ++ ys) from rfl,
      ih]
    rw [show parseNatAux acc (c :: cs) =
      parseNatAux (acc * 10 + digitVal c) cs from rfl]

theorem digitVal_digitChar {n : ℕ} (h : n < 10) :
    digitVal (Nat.digitChar n) = n := by
  interval_cases n <;> decide

theorem digitChar_ne_colon {n : ℕ} (h : n < 10) : Nat.digitChar n ≠ ':' := by
  interval_cases n <;> decide

theorem parseNatAux_natReprAux (fuel : ℕ) : ∀ (n acc : ℕ), n ≤ fuel →
    parseNatAux acc (natReprAux fuel n) =
      acc * 10 ^ (natReprAux fuel n).length + n := by
  induction fuel with
  | zero =>
    intro n acc hn
    have h0 : n = 0 := Nat.le_zero.mp hn
    subst h0
    rw [show natReprAux 0 0 = [Nat.digitChar (0 % 10)] from rfl]
    rw [show parseNatAux acc [Nat.digitChar (0 % 10)] =
      acc * 10 + digitVal (Nat.digitChar (0 % 10)) from rfl]
    rw [digitVal_digitChar (show 0 % 10 < 10 by norm_num)]
    rw [List.length_singleton, pow_one]
  | succ fuel ih =>
    intro n acc hn
    by_cases h : n < 10
    · rw [show natReprAux (fuel + 1) n = [Nat.digitChar n] from by
        rw [natReprAux]; rw [if_pos h]]
      rw [show parseNatAux acc [Nat.digitChar n] =
        acc * 10 + digitVal (Nat.digitChar n) from rfl]
      rw [digitVal_digitChar h]
      rw [List.length_singleton, pow_one]
    · rw [show natReprAux (fuel + 1) n =
          natReprAux fuel (n / 10) ++ [Nat.digitChar (n % 10)] from by
            rw [natReprAux]; rw [if_neg h]]
      rw [parseNatAux_append, ih (n / 10) acc (by omega)]
      rw [show ∀ a : ℕ, parseNatAux a [Nat.digitChar (n % 10)] =
        a * 10 + digitVal (Nat.digitChar (n % 10)) from fun a => rfl]
      rw [digitVal_digitChar (Nat.mod_lt n (by norm_num))]
      rw [List.length_append, List.length_singleton, pow_succ]
      have hdm : n / 10 * 10 + n % 10 = n := by omega
      calc (acc * 10 ^ (natReprAux fuel (n / 10)).length + n / 10) * 10 + n % 10
          = acc * (10 ^ (natReprAux fuel (n / 10)).length * 10) +
              (n / 10 * 10 + n % 10) := by ring
        _ = acc * (10 ^ (natReprAux fuel (n / 10)).length * 10) + n := by rw [hdm]

theorem parseNat_natRepr (n : ℕ) : parseNat (natRepr n) = n := by
  have := parseNatAux_natReprAux n n 0 le_rfl
  simpa [parseNat, natRepr] using this

theorem natRepr_injective {a b : ℕ} (h : natRepr a = natRepr b) : a = b := by
  rw [← parseNat_natRepr a, ← parseNat_natRepr b, h]

theorem natReprAux_ne_colon (fuel : ℕ) : ∀ (n : ℕ), ∀ c ∈ natReprAux fuel n,
    c ≠ ':' := by
  induction fuel with
  | zero =>
    intro n c hc
    simp only [natReprAux, List.mem_singleton] at hc
    subst hc
    exact digitChar_ne_colon (Nat.mod_lt n (by norm_num))
  | succ fuel ih =>
    intro n c hc
    rw [natReprAux] at hc
    split_ifs at hc with h
    · simp only [List.mem_singleton] at hc
      subst hc
      exact digitChar_ne_colon h
    · rcases List.mem_append.mp hc with h' | h'
      · exact ih (n / 10) c h'
      · simp only [List.mem_singleton] at h'
        subst h'
        exact digitChar_ne_colon (Nat.mod_lt n (by norm_num))

theorem natRepr_ne_colon (n : ℕ) : ∀ c ∈ natRepr n, c ≠ ':' :=
  natReprAux_ne_colon n n

theorem append_colon_inj : ∀ (a a' b b' : List Char),
    (∀ c ∈ a, c ≠ ':') → (∀ c ∈ a', c ≠ ':') →
    a ++ ':' :: b = a' ++ ':' :: b' → a = a' ∧ b = b' := by
  intro a
  induction a with
  | nil =>
    intro a' b b' _ ha' h
    cases a' with
    | nil =>
      simp only [List.nil_append, List.cons.injEq] at h
      exact ⟨rfl, h.2⟩
    | cons y ys =>
      simp only [List.nil_append, List.cons_append, List.cons.injEq] at h
      exact absurd h.1.symm (ha' y (List.mem_cons_self y ys))
  | cons x xs ih =>
    intro a' b b' ha ha' h
    cases a' with
    | nil =>
      simp only [List.nil_append, List.cons_append, List.cons.injEq] at h
      exact absurd h.1 (ha x (List.mem_cons_self x xs))
    | cons y ys =>
      simp only [List.cons_append, List.cons.injEq] at h
      obtain ⟨rfl, h2⟩ := h
      obtain ⟨h3, h4⟩ := ih ys b b'
        (fun c hc => ha c (List.mem_cons_of_mem x hc))
        (fun c hc => ha' c (List.mem_cons_of_mem x hc)) h2
      exact ⟨by rw [h3], h4⟩

theorem opName_ne_colon (op : ArithmeticOperation) : ∀ c ∈ opName op, c ≠ ':' := by
  cases op <;> decide

theorem opName_injective {a b : ArithmeticOperation}
    (h : opName a = opName b) : a = b := by
  cases a <;> cases b <;> first | rfl | exact absurd h (by decide)

theorem intRepr_nonneg {z : ℤ} (h : 0 ≤ z) : intRepr z = natRepr z.toNat :=
  if_neg (not_lt.mpr h)

/-- C8: `createArithmeticCardId` is deterministic and injective on
non-negative operands: two triples yield the same id string exactly when
they are equal. -/
theorem createArithmeticCardId_injective
    (op₁ op₂ : ArithmeticOperation) (l₁ r₁ l₂ r₂ : ℤ)
    (hl₁ : 0 ≤ l₁) (hr₁ : 0 ≤ r₁) (hl₂ : 0 ≤ l₂) (hr₂ : 0 ≤ r₂) :
    createArithmeticCardId op₁ l₁ r₁ = createArithmeticCardId op₂ l₂ r₂ ↔
      op₁ = op₂ ∧ l₁ = l₂ ∧ r₁ = r₂ := by
  constructor
  · intro h
    have hdata : "arith:".data ++ opName op₁ ++
        ':' :: intRepr l₁ ++ ':' :: intRepr r₁ =
        "arith:".data ++ opName op₂ ++ ':' :: intRepr l₂ ++ ':' :: intRepr r₂ :=
      congrArg String.data h
    simp only [List.append_assoc] at hdata
    have h1 := List.append_cancel_left hdata
    obtain ⟨hop, hrest⟩ := append_colon_inj _ _ _ _
      (opName_ne_colon op₁) (opName_ne_colon op₂) h1
    rw [intRepr_nonneg hl₁, intRepr_nonneg hr₁, intRepr_nonneg hl₂,
      intRepr_nonneg hr₂] at hrest
    obtain ⟨hl, hr⟩ := append_colon_inj _ _ _ _
      (natRepr_ne_colon _) (natRepr_ne_colon _) hrest
    have hl' := natRepr_injective hl
    have hr' := natRepr_injective hr
    exact ⟨opName_injective hop, by omega, by omega⟩
  · rintro ⟨rfl, rfl, rfl⟩
    rfl

/-- Witness for C8 at concrete triples: same triple gives the same id,
and the id distinguishes the two operations. -/
theorem createArithmeticCardId_injective_witness :
    (createArithmeticCardId .addition 12 3 = createArithmeticCardId .subtraction 12 3 ↔
      ArithmeticOperation.addition = .subtraction ∧ (12 : ℤ) = 12 ∧ (3 : ℤ) = 3) ∧
    (createArithmeticCardId .addition 12 3 = createArithmeticCardId .addition 12 3 ↔
      ArithmeticOperation.addition = .addition ∧ (12 : ℤ) = 12 ∧ (3 : ℤ) = 3) :=
  ⟨createArithmeticCardId_injective .addition .subtraction 12 3 12 3
      (by norm_num) (by norm_num) (by norm_num) (by norm_num),
    createArithmeticCardId_injective .addition .addition 12 3 12 3
      (by norm_num) (by norm_num) (by norm_num) (by norm_num)⟩

/-! ## Helper lemmas: percentile monotonicity (C10) -/

theorem sorted_getD_mono {s : List ℚ} (hs : s.Sorted (· ≤ ·)) {i j : ℕ}
    (hij : i ≤ j) (hj : j < s.length) : s.getD i 0 ≤ s.getD j 0 := by
  have hi : i < s.length := lt_of_le_of_lt hij hj
  rw [List.getD_eq_getElem _ _ hi, List.getD_eq_getElem _ _ hj]
  have := hs.rel_get_of_le (a := ⟨i, hi⟩) (b := ⟨j, hj⟩) (by simpa using hij)
  simpa [List.get_eq_getElem] using this

theorem interpolate_mono {s : List ℚ} (hs : s.Sorted (· ≤ ·)) {x₁ x₂ : ℚ}
    (h0 : 0 ≤ x₁) (h12 : x₁ ≤ x₂) (htop : x₂ ≤ (s.length : ℚ) - 1) :
    interpolate s x₁ ≤ interpolate s x₂ := by
  have hn : 1 ≤ s.length := by
    by_contra hcon
    have : s.length = 0 := by omega
    rw [this] at htop
    have : x₂ ≤ -1 := by push_cast at htop; linarith
    linarith
  have hi₁0 : (0 : ℤ) ≤ ⌊x₁⌋ := Int.floor_nonneg.mpr h0
  have hi12 : ⌊x₁⌋ ≤ ⌊x₂⌋ := Int.floor_le_floor h12
  have hi₂top : ⌊x₂⌋ ≤ (s.length : ℤ) - 1 := by
    have h1 : ⌊x₂⌋ ≤ ⌊(s.length : ℚ) - 1⌋ := Int.floor_le_floor htop
    have h2 : ⌊(s.length : ℚ) - 1⌋ = (s.length : ℤ) - 1 := by
      rw [show ((s.length : ℚ) - 1) = (((s.length : ℤ) - 1 : ℤ) : ℚ) from by push_cast; ring]
      exact Int.floor_intCast _
    omega
  have hw₁0 : 0 ≤ x₁ - (⌊x₁⌋ : ℚ) := by
    have := Int.floor_le x₁
    linarith
  have hw₁1 : x₁ - (⌊x₁⌋ : ℚ) ≤ 1 := by
    have := Int.lt_floor_add_one x₁
    linarith
  have hw₂0 : 0 ≤ x₂ - (⌊x₂⌋ : ℚ) := by
    have := Int.floor_le x₂
    linarith
  simp only [interpolate]
  by_cases hb₂ : (s.length : ℤ) ≤ ⌊x₂⌋ + 1
  · have hi₂ : ⌊x₂⌋ = (s.length : ℤ) - 1 := by omega
    by_cases hb₁ : (s.length : ℤ) ≤ ⌊x₁⌋ + 1
    · rw [if_pos hb₁, if_pos hb₂]
      have : ⌊x₁⌋ = ⌊x₂⌋ := by omega
      rw [this]
    · rw [if_neg hb₁, if_pos hb₂]
      have hlo_hi : s.getD ⌊x₁⌋.toNat 0 ≤ s.getD (⌊x₁⌋.toNat + 1) 0 :=
        sorted_getD_mono hs (Nat.le_succ _) (by omega)
      have hhile : s.getD (⌊x₁⌋.toNat + 1) 0 ≤ s.getD ⌊x₂⌋.toNat 0 :=
        sorted_getD_mono hs (by omega) (by omega)
      nlinarith [mul_nonneg (sub_nonneg.mpr hlo_hi) (sub_nonneg.mpr hw₁1)]
  · by_cases hb₁ : (s.length : ℤ) ≤ ⌊x₁⌋ + 1
    · exact absurd (by omega : (s.length : ℤ) ≤ ⌊x₂⌋ + 1) hb₂
    · rw [if_neg hb₁, if_neg hb₂]
      by_cases hEq : ⌊x₁⌋ = ⌊x₂⌋
      · rw [hEq]
        have hlo_hi : s.getD ⌊x₂⌋.toNat 0 ≤ s.getD (⌊x₂⌋.toNat + 1) 0 :=
          sorted_getD_mono hs (Nat.le_succ _) (by omega)
        have hww : x₁ - (⌊x₂⌋ : ℚ) ≤ x₂ - (⌊x₂⌋ : ℚ) := by linarith
        nlinarith [mul_nonneg (sub_nonneg.mpr hlo_hi) (sub_nonneg.mpr hww)]
      · have hlt : ⌊x₁⌋ < ⌊x₂⌋ := lt_of_le_of_ne hi12 hEq
        have hlo_hi₁ : s.getD ⌊x₁⌋.toNat 0 ≤ s.getD (⌊x₁⌋.toNat + 1) 0 :=
          sorted_getD_mono hs (Nat.le_succ _) (by omega)
        have hmid : s.getD (⌊x₁⌋.toNat + 1) 0 ≤ s.getD ⌊x₂⌋.toNat 0 :=
          sorted_getD_mono hs (by omega) (by omega)
        have hlo_hi₂ : s.getD ⌊x₂⌋.toNat 0 ≤ s.getD (⌊x₂⌋.toNat + 1) 0 :=
          sorted_getD_mono hs (Nat.le_succ _) (by omega)
        nlinarith [mul_nonneg (sub_nonneg.mpr hlo_hi₁) (sub_nonneg.mpr hw₁1),
          mul_nonneg (sub_nonneg.mpr hlo_hi₂) hw₂0]

theorem percentileOfSorted_mono {s : List ℚ} (hs : s.Sorted (· ≤ ·)) {p q : ℚ}
    (hp : 0 ≤ p) (hq : q ≤ 100) (hpq : p ≤ q) :
    percentileOfSorted s p ≤ percentileOfSorted s q := by
  unfold percentileOfSorted
  by_cases hemp : s.isEmpty
  · rw [if_pos hemp, if_pos hemp]
  · rw [if_neg hemp, if_neg hemp]
    have hn : 1 ≤ s.length := by
      cases s with
      | nil => simp at hemp
      | cons a t => simp
    have hn' : (1 : ℚ) ≤ (s.length : ℚ) := by exact_mod_cast hn
    apply interpolate_mono hs
    · exact mul_nonneg (div_nonneg hp (by norm_num)) (by linarith)
    · exact mul_le_mul_of_nonneg_right (by linarith) (by linarith)
    · exact mul_le_of_le_one_left (by linarith) (by linarith)

/-- C10: after every `updateSpeedStats`, the four percentile values of the
resulting statistics are non-decreasing: `p25 ≤ p50 ≤ p75 ≤ p90`. -/
theorem updateSpeedStats_percentiles_monotone :
    ∀ (stats : SpeedStats) (t : ℚ) (wt : ℤ),
      (updateSpeedStats stats t wt).percentiles.p25 ≤
          (updateSpeedStats stats t wt).percentiles.p50 ∧
      (updateSpeedStats stats t wt).percentiles.p50 ≤
          (updateSpeedStats stats t wt).percentiles.p75 ∧
      (updateSpeedStats stats t wt).percentiles.p75 ≤
          (updateSpeedStats stats t wt).percentiles.p90 := by
  intro stats t wt
  have hs : ((stats.responses ++ [t]).insertionSort (· ≤ ·)).Sorted (· ≤ ·) :=
    List.sorted_insertionSort (· ≤ ·) _
  refine ⟨?_, ?_, ?_⟩ <;>
    exact percentileOfSorted_mono hs (by norm_num) (by norm_num) (by norm_num)

end MathPractice
